import Mathlib

/-!
Verification of the coco web framework's routing, middleware-chain,
request-decoration and response-building logic, via a shallow embedding of
the Go source into Lean.  Go strings are modelled as lists of characters,
Go slices as Lean lists, Go `int64` as `Int` with an explicit range check
where the source parses integers, and fallible operations as `Except` /
`Option` values.  Handlers are opaque tokens: the framework never inspects
a handler, it only stores, concatenates and invokes them, so their identity
is all that matters for the properties proved here.
-/

namespace Coco

/-- Go strings modelled as lists of characters. -/
abbrev Str := List Char

/-- Embedding of Go `strings.Split(s, sep)` for a one-character separator:
splits around each occurrence of the separator; the result always has one
more element than the number of separators, in particular `split "" = [""]`. -/
def splitOnChar (sep : Char) : Str → List Str
  | [] => [[]]
  | c :: cs =>
    if c = sep then [] :: splitOnChar sep cs
    else
      match splitOnChar sep cs with
      | [] => [[c]]
      | r :: rs => (c :: r) :: rs

/-- ASCII model of Go `unicode.IsSpace` as used by `strings.TrimSpace`
(the headers handled here are ASCII). -/
def isSpaceChar (c : Char) : Bool :=
  c = ' ' || c = '\t' || c = '\n' || c = '\x0b' || c = '\x0c' || c = '\r'

/-- Embedding of Go `strings.TrimSpace`: drop spaces from both ends. -/
def trimSpace (s : Str) : Str :=
  ((s.dropWhile isSpaceChar).reverse.dropWhile isSpaceChar).reverse

/-- Embedding of Go `strings.HasPrefix`. -/
def strHasPrefix (p s : Str) : Bool := p.isPrefixOf s

/-- Embedding of splitting a Go string at the first occurrence of a
character (the combination `strings.Index` / `strings.SplitN(s, sep, 2)`):
returns the part before the first occurrence and, when the character
occurs, the part after it. -/
def splitAtFirstChar (sep : Char) : Str → Str × Option Str
  | [] => ([], none)
  | c :: cs =>
    if c = sep then ([], some cs)
    else
      let r := splitAtFirstChar sep cs
      (c :: r.1, r.2)

/-! ### MiddlewareChain execution: `context.next`

Embedding of `context.next` (src/context.go and its twin in the unnamed
sources): the per-request context owns the mutable list of remaining
handlers.  Handlers, the response and the request are opaque tokens; the
observable behaviour of one `next` call is either the 404 terminal
(`http.NotFound`) or the invocation of the popped head handler with the
response, the request and the continuation context. -/

namespace Ctx

/-- Per-request context state: the remaining handler chain
(`reqcontext.handlers`). -/
structure ReqContext where
  handlers : List Nat
deriving DecidableEq, Repr

/-- Observable outcome of one `next` call.  `invoke h rw rq rest` denotes
calling handler `h` with response `rw`, request `rq` and `c.next` as the
continuation, where the context `c` now holds exactly the remaining
handlers `rest`; `notFound404` denotes the `http.NotFound` terminal. -/
inductive NextOutcome where
  | notFound404
  | invoke (h : Nat) (rw : Nat) (rq : Nat) (rest : List Nat)
deriving DecidableEq, Repr

/-- Embedding of `context.next(rw, req)`: an empty chain produces the 404
terminal and leaves the state unchanged; otherwise the head handler is
removed from the chain state and invoked with `(rw, req, next)`. -/
def next (c : ReqContext) (rw rq : Nat) : NextOutcome × ReqContext :=
  match c.handlers with
  | [] => (.notFound404, c)
  | h :: t => (.invoke h rw rq t, { handlers := t })

end Ctx

/-! ### Request decoration: X-Forwarded-For (`newRequest`, `parseXForwardedFor`) -/

namespace Req

/-- Embedding of `parseXForwardedFor` (src/request.go): split the header on
commas and trim each token.  An absent header reaches this function as the
empty string, since Go `http.Header.Get` returns `""` for a missing key. -/
def parseXForwardedFor (header : Str) : List Str :=
  (splitOnChar ',' header).map trimSpace

/-- Embedding of the `Ips` computation in `newRequest` (src/request.go):
the field starts as the empty list and is replaced by the parsed
X-Forwarded-For tokens exactly when the "trust proxy" setting is enabled. -/
def requestIps (trustProxy : Bool) (xff : Str) : List Str :=
  if trustProxy then parseXForwardedFor xff else []

/-! Byte-range parsing: embedding of `Request.Range` (src/request.go lines
362-422).  Bounds are parsed with Go `strconv.ParseInt(s, 10, 64)`: an
optional sign followed by at least one decimal digit, rejected when the
value does not fit in a signed 64-bit integer.  Arithmetic is on `Int`;
with all parsed bounds and the caller-supplied size inside the int64
range, none of the source's `int64` operations can overflow, so `Int`
arithmetic coincides with Go's. -/

/-- Accumulator pass of decimal-digit parsing: `none` on the first
non-digit character. -/
def digitsValAux (acc : Nat) : Str → Option Nat
  | [] => some acc
  | c :: cs => if c.isDigit then digitsValAux (acc * 10 + (c.toNat - 48)) cs else none

/-- Embedding of Go `strconv.ParseInt(s, 10, 64)`: optional sign, one or
more decimal digits, result within the signed 64-bit range. -/
def parseInt64 (s : Str) : Option Int :=
  match s with
  | [] => none
  | '+' :: ds =>
    if ds = [] then none
    else
      match digitsValAux 0 ds with
      | none => none
      | some n => if n ≤ 2 ^ 63 - 1 then some (n : Int) else none
  | '-' :: ds =>
    if ds = [] then none
    else
      match digitsValAux 0 ds with
      | none => none
      | some n => if n ≤ 2 ^ 63 then some (-(n : Int)) else none
  | ds =>
    match digitsValAux 0 ds with
    | none => none
    | some n => if n ≤ 2 ^ 63 - 1 then some (n : Int) else none

/-- Error outcomes of `Request.Range`, one per distinct `fmt.Errorf` in the
source: "invalid range specifier", "invalid range format", "invalid range
start value", "invalid range end value", "no satisfiable range found". -/
inductive RangeError where
  | invalidSpecifier
  | invalidFormat
  | invalidStart
  | invalidEnd
  | noSatisfiable
deriving DecidableEq, Repr

/-- The candidate (start, end) pair of one comma-separated range clause,
before the satisfiability filter: trim, require a `-`, trim and parse both
bounds (a missing start bound means a suffix range `-end`, a missing end
bound means `start-`), apply the source's adjustments.  `ok none` is an
empty clause (skipped by `continue` in the source). -/
def clauseCandidate (size : Int) (rStr : Str) : Except RangeError (Option (Int × Int)) :=
  let r := trimSpace rStr
  if r = [] then .ok none
  else
    match splitAtFirstChar '-' r with
    | (_, none) => .error .invalidFormat
    | (s1, some s2) =>
      let startStr := trimSpace s1
      let endStr := trimSpace s2
      match (if startStr = [] then some 0 else parseInt64 startStr) with
      | none => .error .invalidStart
      | some st =>
        match (if endStr = [] then some 0 else parseInt64 endStr) with
        | none => .error .invalidEnd
        | some en =>
          if startStr = [] then .ok (some (size - en, size - 1))
          else if endStr = [] then .ok (some (st, size - 1))
          else .ok (some (st, en))

/-- The source's discard condition
`start > end || start < 0 || end >= size`. -/
def unsatisfiable (size : Int) (p : Int × Int) : Bool :=
  decide (p.1 > p.2) || decide (p.1 < 0) || decide (p.2 ≥ size)

/-- One clause of the `for _, rStr := range rangesStr` loop body: parse the
candidate and silently drop it when unsatisfiable. -/
def processClause (size : Int) (rStr : Str) : Except RangeError (Option (Int × Int)) :=
  match clauseCandidate size rStr with
  | .ok (some p) => if unsatisfiable size p then .ok none else .ok (some p)
  | x => x

/-- The whole clause loop: first clause error wins, kept pairs accumulate
in input order. -/
def processClauses (size : Int) : List Str → Except RangeError (List (Int × Int))
  | [] => .ok []
  | cl :: rest =>
    match processClause size cl with
    | .error e => .error e
    | .ok none => processClauses size rest
    | .ok (some p) =>
      match processClauses size rest with
      | .error e => .error e
      | .ok l => .ok (p :: l)

/-- The pair a clause contributes to the result, if any. -/
def clauseKept (size : Int) (cl : Str) : Option (Int × Int) :=
  match processClause size cl with
  | .ok (some p) => some p
  | _ => none

/-- The `"bytes="` range-header marker. -/
def bytesMarker : Str := [ 'b', 'y', 't', 'e', 's', '=' ]

/-- Embedding of `Request.Range(size)`: an absent header is no error and no
ranges; a header not starting with `bytes=` is an invalid specifier; else
split on commas, process every clause, and fail with the
unsatisfiable-range error exactly when no pair survived. -/
def Range (header : Str) (size : Int) : Except RangeError (List (Int × Int)) :=
  if header = [] then .ok []
  else if ¬ strHasPrefix bytesMarker header then .error .invalidSpecifier
  else
    match processClauses size (splitOnChar ',' (header.drop 6)) with
    | .error e => .error e
    | .ok l => if l = [] then .error .noSatisfiable else .ok l

/-- Modelled from the spec's words, for comparison with the source's
signed parse: a bound "parses as a non-negative integer" when it parses
and its value is not negative. -/
def parsesAsNonNegInt (s : Str) : Bool :=
  match parseInt64 s with
  | some v => decide (0 ≤ v)
  | none => false

end Req

/-! ### RouteNode tree, effective middleware, and the dispatcher walk

Embedding of `route` (src/route.go, the lineage cited at lines 300-509:
`fetchMiddleware`, `combineHandlers`, `handle`) and of
`App.configureRoutes` / `App.traverseAndConfigure` / `App.ServeHTTP`
(the `sync.Once` lineage of the unnamed coco source).

A Go `route` holds its own middleware, its registered `paths`, a parent
pointer, a `rootNode` flag and a memoized `cachedMiddleware` slice.  Here
the tree is a `route` value whose children are listed explicitly, and the
parent chain of a node is represented by the root-to-leaf list `anc` of its
ancestors' own middleware lists, which is what the parent-pointer walk in
`fetchMiddleware` consumes.  `cachedMiddleware == nil` in Go is `none`
here; the walk accumulator `middleware` starts as the nil slice and Go's
`append` materialises exactly the concatenations recorded below. -/

namespace Rt

/-- Handlers are opaque tokens: the router only stores and concatenates
them. -/
abbrev Handler := Nat

/-- Embedding of `routePath` (src/route.go): one registered entry. -/
structure routePath where
  name : Str
  handlers : List Handler
  method : Str

/-- Embedding of the `route` tree: own middleware, registered entries, and
child routes (the Go `children` map, in its iteration order). -/
inductive route where
  | mk (middleware : List Handler) (paths : List routePath) (children : List route)

/-- Embedding of the parent-pointer loop in `fetchMiddleware`:
`for current := r; current != nil; current = current.parent
\x7b middleware = append(current.middleware, middleware...) \x7d`.
The list argument is the sequence of `current.middleware` values in visit
order (the node first, then its ancestors leaf-to-root). -/
def middlewareLoop : List (List Handler) → List Handler → List Handler
  | [], acc => acc
  | mw :: rest, acc => middlewareLoop rest (mw ++ acc)

/-- Embedding of `route.fetchMiddleware` (value returned): a root node
returns its own middleware; otherwise a non-nil cache is returned as is,
else the parent-pointer walk computes the chain.  `anc` is the node's
ancestors' own middleware, root first, so the walk visits
`own :: anc.reverse`. -/
def fetchMiddleware (anc : List (List Handler)) (rootNode : Bool)
    (cached : Option (List Handler)) (own : List Handler) : List Handler :=
  if rootNode then own
  else
    match cached with
    | some c => c
    | none => middlewareLoop (own :: anc.reverse) []

/-- Embedding of `route.fetchMiddleware` (the node's `cachedMiddleware`
after the call): the computed slice is stored, and a computation in which
nothing was appended leaves the nil slice in place. -/
def fetchMiddlewareCache (anc : List (List Handler)) (rootNode : Bool)
    (cached : Option (List Handler)) (own : List Handler) : Option (List Handler) :=
  if rootNode then cached
  else
    match cached with
    | some c => some c
    | none =>
      let mw := middlewareLoop (own :: anc.reverse) []
      if mw = [] then none else some mw

/-- Embedding of `route.combineHandlers`: the fetched effective middleware
followed by the entry's own handlers. -/
def combineHandlers (anc : List (List Handler)) (rootNode : Bool)
    (cached : Option (List Handler)) (own : List Handler)
    (handlers : List Handler) : List Handler :=
  fetchMiddleware anc rootNode cached own ++ handlers

/-- Registration target: what `traverseAndConfigure` hands to
`httprouter.Router.Handle`, namely (method, full path, final handlers). -/
abbrev Registration := Str × Str × List Handler

mutual

/-- Embedding of `App.traverseAndConfigure`: register every entry of the
node with its combined handler chain, then recurse into the children.  The
node's `fetchMiddleware` is evaluated here with an empty cache; the C1
theorem shows any cache left by an earlier call yields the same value. -/
def traverseAndConfigure (anc : List (List Handler)) (isRoot : Bool) :
    route → List Registration
  | .mk mw ps cs =>
    ps.map (fun p => (p.method, p.name, combineHandlers anc isRoot none mw p.handlers))
      ++ traverseChildren (anc ++ [mw]) cs

/-- The `for _, child := range r.children` recursion of
`traverseAndConfigure`. -/
def traverseChildren (anc : List (List Handler)) : List route → List Registration
  | [] => []
  | c :: rest => traverseAndConfigure anc false c ++ traverseChildren anc rest

end

mutual

/-- Modelled from the spec's words, for comparison with the source's
`traverseAndConfigure`: every entry is registered with
`ancestor middleware (root first) ++ node middleware ++ entry handlers`
and nothing else, then the children follow. -/
def traverseSpec (anc : List (List Handler)) : route → List Registration
  | .mk mw ps cs =>
    ps.map (fun p => (p.method, p.name, anc.flatten ++ mw ++ p.handlers))
      ++ traverseSpecChildren (anc ++ [mw]) cs

/-- Children part of `traverseSpec`. -/
def traverseSpecChildren (anc : List (List Handler)) : List route → List Registration
  | [] => []
  | c :: rest => traverseSpec anc c ++ traverseSpecChildren anc rest

end

/-! App-level dispatcher guard: embedding of `App.ServeHTTP`'s
`a.once.Do(func() \x7b a.configureRoutes(); ... \x7d)` and of the fact that
the dispatch through `httprouter` performs no further registration.  The
`sync.Once` latch is the `configured` flag (sequential semantics). -/

/-- Registration-relevant application state: the `sync.Once` latch and the
set of entries registered with the `httprouter` path matcher. -/
structure AppState where
  configured : Bool
  registered : List Registration

/-- State of a freshly constructed `App`: the once-guard has not fired and
nothing is registered. -/
def initialAppState : AppState := { configured := false, registered := [] }

/-- Embedding of the registration effect of one `ServeHTTP` call: the
`once.Do` body runs `configureRoutes` (the full tree walk, rooted at the
app's root route) exactly when the latch has not fired. -/
def ServeHTTPConfigure (tree : route) (s : AppState) : AppState :=
  if s.configured then s
  else { configured := true, registered := s.registered ++ traverseAndConfigure [] true tree }

end Rt

/-! ### Response sink: the write-once status discipline

Embedding of `wrappedWriter` (src/response.go lines 52-103) and of the
`Response` operations `Status`, `SendStatus` and body writes that feed it.
The wrapped writer tracks `statusCode` and `statusCodeWritten`; the calls
it forwards to the underlying platform `http.ResponseWriter` are recorded
as an event list.  Header-map updates (`Set`) do not touch the status
machinery and are not tracked here. -/

namespace Resp

/-- One call forwarded to the underlying platform response writer. -/
inductive UnderlyingEvent where
  | writeHeader (code : Nat)
  | write (body : List Nat)
deriving DecidableEq, Repr

/-- Embedding of `wrappedWriter`: the pending/committed status code, the
write-once flag, and the calls made so far on the wrapped
`http.ResponseWriter`. -/
structure wrappedWriter where
  statusCode : Nat
  statusCodeWritten : Bool
  underlying : List UnderlyingEvent
deriving DecidableEq, Repr

/-- Embedding of `wrapWriter(original)`: zero status, nothing written. -/
def wrapWriter : wrappedWriter :=
  { statusCode := 0, statusCodeWritten := false, underlying := [] }

/-- Embedding of `wrappedWriter.WriteHeader`: only the first call records
the code and forwards to the underlying writer; later calls are no-ops. -/
def WriteHeader (w : wrappedWriter) (code : Nat) : wrappedWriter :=
  if w.statusCodeWritten then w
  else
    { statusCode := code, statusCodeWritten := true,
      underlying := w.underlying ++ [.writeHeader code] }

/-- Embedding of `wrappedWriter.Write`: an uncommitted writer first commits
status 200, then the body is always forwarded. -/
def Write (w : wrappedWriter) (body : List Nat) : wrappedWriter :=
  let w2 := if ¬ w.statusCodeWritten then WriteHeader w 200 else w
  { w2 with underlying := w2.underlying ++ [.write body] }

/-- Embedding of `Response.Status` (src/response.go lines 312-316): the
source invokes `ww.WriteHeader(code)` twice in a row. -/
def Status (w : wrappedWriter) (code : Nat) : wrappedWriter :=
  WriteHeader (WriteHeader w code) code

/-- Embedding of `Response.SendStatus`: commit the code, then write the
standard reason phrase as body (the text itself is irrelevant here and
represented by the code). -/
def SendStatus (w : wrappedWriter) (code : Nat) : wrappedWriter :=
  Write (WriteHeader w code) [code]

/-- One call on the `Response` / wrapped-writer surface. -/
inductive ROp where
  | status (code : Nat)
  | sendStatus (code : Nat)
  | write (body : List Nat)
  | writeHeader (code : Nat)
deriving DecidableEq, Repr

/-- Apply one surface call to the wrapped writer. -/
def applyOp (w : wrappedWriter) : ROp → wrappedWriter
  | .status code => Status w code
  | .sendStatus code => SendStatus w code
  | .write body => Write w body
  | .writeHeader code => WriteHeader w code

/-- Run a sequence of surface calls. -/
def runOps (w : wrappedWriter) (ops : List ROp) : wrappedWriter :=
  ops.foldl applyOp w

/-- Number of `WriteHeader` calls that reached the underlying platform
writer. -/
def countWriteHeader (evs : List UnderlyingEvent) : Nat :=
  evs.countP fun e =>
    match e with
    | .writeHeader _ => true
    | .write _ => false

/-! Vary header merging (`Response.Vary`, src/response.go lines 367-391).
The operation is expressed on the current value of the Vary header (`""`
when unset, as `Header.Get` returns it). -/

/-- Embedding of `Response.Vary`: `some v` means the call sets the header
to `v`; `none` means the call returns without touching the header (an
empty field argument, which is only logged, or a field already present in
the comma-split of the existing header). -/
def Vary (existingHeader field : Str) : Option Str :=
  if field = [] then none
  else if existingHeader = [ '*' ] ∨ field = [ '*' ] then some [ '*' ]
  else if (splitOnChar ',' existingHeader).any (fun f => trimSpace f == field) then none
  else some (if existingHeader = [] then field else existingHeader ++ ',' :: ' ' :: field)

/-- Value of the Vary header after a `Vary` call. -/
def varyApply (existingHeader field : Str) : Str :=
  match Vary existingHeader field with
  | none => existingHeader
  | some v => v

/-- Modelled from the spec's words (the RFC 7231 `tchar` set), for
comparison with the validation the source actually performs. -/
def isTchar (c : Char) : Bool :=
  c.isAlpha || c.isDigit || c = '!' || c = '#' || c = '$' || c = '%' || c = '&' ||
    c = '\x27' || c = '*' || c = '+' || c = '-' || c = '.' || c = '^' || c = '_' ||
    c = '\x60' || c = '|' || c = '~'

/-- Modelled from the spec's words: a valid RFC 7231 header field name is a
nonempty sequence of `tchar` characters. -/
def isToken7231 (s : Str) : Bool :=
  !s.isEmpty && s.all isTchar

end Resp

/-! ### Signed cookies: standard base64 and `Response.SignedCookie`

`Response.SignedCookie` (src/response.go lines 145-153) HMAC-SHA256s the
cookie value under the secret (crypto/hmac and crypto/sha256, external
collaborators modelled as an abstract digest function into bytes),
base64-encodes the digest with `base64.StdEncoding` (embedded below:
standard alphabet, `=` padding) and stores `"<encoded>.<value>"`. -/

namespace B64

/-- The standard base64 alphabet, index 0-63. -/
def b64Chars : Str :=
  ("ABCDEFGHIJKLMNOPQRSTUVWXYZabcdefghijklmnopqrstuvwxyz0123456789+/".toList)

/-- Character for a six-bit group. -/
def b64Char (n : Nat) : Char := b64Chars.getD n 'A'

/-- Index of a base64 character in the alphabet. -/
def b64Val (c : Char) : Option Nat := b64Chars.findIdx? (fun x => x == c)

/-- Bytes are `Fin 256`; this truncates a reassembled group back into a
byte. -/
def byteOf (n : Nat) : Fin 256 := ⟨n % 256, Nat.mod_lt n (by omega)⟩

/-- Embedding of `base64.StdEncoding.EncodeToString` on a byte list:
three bytes become four alphabet characters, a final one- or two-byte
group is padded with `=`. -/
def b64EncodeList : List (Fin 256) → Str
  | [] => []
  | [a] => [ b64Char (a.val / 4), b64Char (a.val % 4 * 16), '=', '=' ]
  | [a, b] =>
    [ b64Char (a.val / 4), b64Char (a.val % 4 * 16 + b.val / 16),
      b64Char (b.val % 16 * 4), '=' ]
  | a :: b :: c :: rest =>
    b64Char (a.val / 4) :: b64Char (a.val % 4 * 16 + b.val / 16) ::
      b64Char (b.val % 16 * 4 + c.val / 64) :: b64Char (c.val % 64) :: b64EncodeList rest

/-- Standard base64 decoding, the verifying side of the round-trip. -/
def b64DecodeList : Str → Option (List (Fin 256))
  | [] => some []
  | w :: x :: y :: z :: rest =>
    match b64Val w, b64Val x with
    | some vw, some vx =>
      if y = '=' ∧ z = '=' ∧ rest = [] then
        some [byteOf (vw * 4 + vx / 16)]
      else if z = '=' ∧ rest = [] then
        match b64Val y with
        | some vy => some [byteOf (vw * 4 + vx / 16), byteOf (vx % 16 * 16 + vy / 4)]
        | none => none
      else
        match b64Val y, b64Val z, b64DecodeList rest with
        | some vy, some vz, some bs =>
          some (byteOf (vw * 4 + vx / 16) :: byteOf (vx % 16 * 16 + vy / 4) ::
            byteOf (vy % 4 * 64 + vz) :: bs)
        | _, _, _ => none
    | _, _ => none
  | _ => none

end B64

namespace Resp

/-- Embedding of `Response.SignedCookie`: the stored cookie value is the
base64 digest of the HMAC (an abstract digest function `mac` of secret and
value), a `.`, and the original value. -/
def SignedCookie (mac : Str → Str → List (Fin 256)) (secret value : Str) : Str :=
  B64.b64EncodeList (mac secret value) ++ '.' :: value

end Resp

/-! ### File transfer: `Response.Download` and `Response.SendFile`

Embedding of `Download` (src/response.go lines 164-175) and `SendFile`
(lines 179-246), projected onto their filesystem calls and the error value
delivered to the caller-supplied callback; header writes and the final
`http.ServeContent` are summarised by one `serveContent` event.  The
filesystem (`os.Stat`, `os.Open`) is the external collaborator. -/

namespace Dl

/-- Embedding of `DownloadOption` (src/response.go lines 22-30). -/
structure DownloadOption where
  maxAge : Int
  lastModified : Bool
  headers : List (Str × Str)
  dotfiles : Str
  acceptRanges : Bool
  cacheControl : Bool
  immutable : Bool

/-- Embedding of `defaultDownloadOptions` (used when the caller passes
`nil` options): dotfiles policy `"ignore"`. -/
def defaultDownloadOptions : DownloadOption :=
  { maxAge := 0, lastModified := false, headers := [], dotfiles := ("ignore".toList),
    acceptRanges := true, cacheControl := true, immutable := false }

/-- The filesystem collaborator: `stat` yields whether the path is a
directory (`none` for a missing path); `openOk` tells whether opening
succeeds. -/
structure FileSystem where
  stat : Str → Option Bool
  openOk : Str → Bool

/-- Filesystem interactions of one transfer, in call order. -/
inductive FsEvent where
  | stat (path : Str)
  | openFile (path : Str)
  | serveContent
deriving DecidableEq, Repr

/-- The value handed to the completion callback (`none` is the final
`cb(nil)`): `ErrDotfilesDeny`, `ErrDirPath`, the `os.Stat` error of a
missing file (not-found), or an `os.Open` error. -/
inductive FileError where
  | dotfilesDeny
  | dirPath
  | statFailed
  | openFailed
deriving DecidableEq, Repr

/-- Embedding of `Response.SendFile`: stat first (failure → callback gets
the stat error), reject directories, open (failure → callback gets the
open error), then serve and call back with `nil`. -/
def SendFile (fs : FileSystem) (filePath fileName : Str)
    (options : Option DownloadOption) : List FsEvent × Option FileError :=
  match fs.stat filePath with
  | none => ([.stat filePath], some .statFailed)
  | some isDir =>
    if isDir then ([.stat filePath], some .dirPath)
    else if fs.openOk filePath then
      ([.stat filePath, .openFile filePath, .serveContent], none)
    else ([.stat filePath, .openFile filePath], some .openFailed)

/-- Embedding of `Response.Download`: `nil` options become the defaults;
with dotfiles policy `"deny"` and a filename beginning with `'.'`
(`strings.HasPrefix(filename, ".")`), the callback receives
`ErrDotfilesDeny` before any filesystem call; otherwise the transfer is
`SendFile`. -/
def Download (fs : FileSystem) (filePath fileName : Str)
    (options : Option DownloadOption) : List FsEvent × Option FileError :=
  let opts := options.getD defaultDownloadOptions
  if opts.dotfiles = ("deny".toList) ∧ strHasPrefix [ '.' ] fileName then
    ([], some .dotfilesDeny)
  else SendFile fs filePath fileName options

/-- Modelled from the spec's words, for comparison with the source's
whole-filename check: the final path segment of a filename (the part
after the last `/`). -/
def lastSegment (s : Str) : Str := (splitOnChar '/' s).getLastD []

/-- Options with dotfiles policy `"deny"`, as in the claim's scenario. -/
def denyOptions : DownloadOption :=
  { defaultDownloadOptions with dotfiles := ("deny".toList) }

end Dl

/-! ### Host-header decoration: `parseHostName` and the dispatch wrapper -/

namespace Req

/-- Embedding of `parseHostName` (src/request.go lines 162-167): strip
everything from the first `:` on.  The signature declares an error result
but no branch produces one. -/
def parseHostName (host : Str) : Except Str Str :=
  match splitAtFirstChar ':' host with
  | (pre, some _) => .ok pre
  | (whole, none) => .ok whole

/-- Observable steps of the handler closure registered by
`traverseAndConfigure` (unnamed coco source, `sync.Once` lineage), given
the outcome of `newRequest`: a decoration error is only printed as a DEBUG
line, and the handler chain is entered in every case. -/
inductive DispatchEvent where
  | logDecorationError
  | runChain
deriving DecidableEq, Repr

/-- Embedding of the `newRequest`-handling prologue of the registered
closure: `if err != nil` prints, then the context is built and
`ctx.next` runs the chain. -/
def handlerEntry (decorated : Except Str Unit) : List DispatchEvent :=
  match decorated with
  | .error _ => [.logDecorationError, .runChain]
  | .ok _ => [.runChain]

end Req

/-! ## Helper lemmas -/

theorem splitOnChar_ne_nil (sep : Char) (s : Str) : splitOnChar sep s ≠ [] := by
  induction s with
  | nil => simp [splitOnChar]
  | cons c cs ih =>
    simp only [splitOnChar]
    by_cases h : c = sep
    · simp [h]
    · simp only [h, if_false]
      cases hs : splitOnChar sep cs with
      | nil => simp
      | cons r rs => simp

theorem splitAtFirstChar_append (sep : Char) (xs ys : Str) (h : sep ∉ xs) :
    splitAtFirstChar sep (xs ++ sep :: ys) = (xs, some ys) := by
  induction xs with
  | nil => simp [splitAtFirstChar]
  | cons c cs ih =>
    simp only [List.mem_cons, not_or] at h
    simp only [List.cons_append, splitAtFirstChar]
    have hc : ¬ c = sep := fun he => h.1 he.symm
    simp [hc, ih h.2]

namespace Rt

theorem middlewareLoop_eq (l : List (List Handler)) (acc : List Handler) :
    middlewareLoop l acc = l.reverse.flatten ++ acc := by
  induction l generalizing acc with
  | nil => simp [middlewareLoop]
  | cons mw rest ih => simp [middlewareLoop, ih]

theorem fetchMiddleware_eq (anc : List (List Handler)) (rootNode : Bool)
    (cached : Option (List Handler)) (own : List Handler)
    (hroot : rootNode = true → anc = [])
    (hcache : ∀ v, cached = some v → v = anc.flatten ++ own) :
    fetchMiddleware anc rootNode cached own = anc.flatten ++ own := by
  cases rootNode with
  | true => simp [fetchMiddleware, hroot rfl]
  | false =>
    cases cached with
    | some c =>
      simp only [fetchMiddleware, Bool.false_eq_true, if_false]
      exact hcache c rfl
    | none => simp [fetchMiddleware, middlewareLoop_eq]

theorem fetchMiddlewareCache_eq (anc : List (List Handler)) (rootNode : Bool)
    (cached : Option (List Handler)) (own : List Handler)
    (hcache : ∀ v, cached = some v → v = anc.flatten ++ own) :
    ∀ v, fetchMiddlewareCache anc rootNode cached own = some v → v = anc.flatten ++ own := by
  intro v hv
  cases rootNode with
  | true =>
    simp only [fetchMiddlewareCache, if_true] at hv
    exact hcache v hv
  | false =>
    cases cached with
    | some c =>
      simp only [fetchMiddlewareCache, Bool.false_eq_true, if_false,
        Option.some.injEq] at hv
      exact hcache v (by rw [hv])
    | none =>
      simp only [fetchMiddlewareCache, Bool.false_eq_true, if_false] at hv
      split at hv
      · exact absurd hv (by simp)
      · have hv' := Option.some.inj hv
        rw [← hv', middlewareLoop_eq]
        simp

theorem traverse_eq_spec_aux : ∀ (n : Nat),
    (∀ t : route, sizeOf t ≤ n → ∀ anc, traverseAndConfigure anc false t = traverseSpec anc t) ∧
    (∀ cs : List route, sizeOf cs ≤ n → ∀ anc, traverseChildren anc cs = traverseSpecChildren anc cs) := by
  intro n
  induction n using Nat.strong_induction_on with
  | _ n ih =>
    constructor
    · intro t ht anc
      match t with
      | .mk mw ps cs =>
        have hs : sizeOf cs < sizeOf (route.mk mw ps cs) := by
          simp only [route.mk.sizeOf_spec]
          omega
        have hcs : sizeOf cs < n := Nat.lt_of_lt_of_le hs ht
        have hfun : (fun p : routePath =>
              (p.method, p.name, combineHandlers anc false none mw p.handlers))
            = fun p : routePath => (p.method, p.name, anc.flatten ++ mw ++ p.handlers) := by
          funext p
          simp [combineHandlers, fetchMiddleware_eq anc false none mw (by simp) (by simp)]
        simp only [traverseAndConfigure, traverseSpec, hfun]
        rw [(ih (sizeOf cs) hcs).2 cs le_rfl (anc ++ [mw])]
    · intro cs hcs anc
      match cs with
      | [] => rfl
      | c :: rest =>
        have h1 : sizeOf c < sizeOf (c :: rest) := by
          simp only [List.cons.sizeOf_spec]
          omega
        have h2 : sizeOf rest < sizeOf (c :: rest) := by
          simp only [List.cons.sizeOf_spec]
          omega
        simp only [traverseChildren, traverseSpecChildren]
        rw [(ih (sizeOf c) (Nat.lt_of_lt_of_le h1 hcs)).1 c le_rfl anc,
          (ih (sizeOf rest) (Nat.lt_of_lt_of_le h2 hcs)).2 rest le_rfl anc]

theorem traverse_eq_spec (t : route) (anc : List (List Handler)) :
    traverseAndConfigure anc false t = traverseSpec anc t :=
  (traverse_eq_spec_aux (sizeOf t)).1 t le_rfl anc

theorem traverse_root_eq_spec (t : route) :
    traverseAndConfigure [] true t = traverseSpec [] t := by
  match t with
  | .mk mw ps cs =>
    have hfun : (fun p : routePath =>
          (p.method, p.name, combineHandlers [] true none mw p.handlers))
        = fun p : routePath =>
          (p.method, p.name, ([] : List (List Handler)).flatten ++ mw ++ p.handlers) := by
      funext p
      simp [combineHandlers, fetchMiddleware]
    simp only [traverseAndConfigure, traverseSpec, hfun]
    rw [(traverse_eq_spec_aux (sizeOf cs)).2 cs le_rfl ([] ++ [mw])]

end Rt

namespace B64

theorem mem_b64Chars_ne_dot : ∀ c ∈ b64Chars, c ≠ '.' := by decide

theorem mem_b64Chars_ne_pad : ∀ c ∈ b64Chars, c ≠ '=' := by decide

theorem b64Char_ne_dot (n : Nat) : b64Char n ≠ '.' := by
  by_cases h : n < b64Chars.length
  · rw [b64Char, List.getD_eq_getElem b64Chars 'A' h]
    exact mem_b64Chars_ne_dot _ (List.getElem_mem h)
  · rw [b64Char, List.getD_eq_default]
    · decide
    · omega

theorem b64Char_ne_pad (n : Nat) : b64Char n ≠ '=' := by
  by_cases h : n < b64Chars.length
  · rw [b64Char, List.getD_eq_getElem b64Chars 'A' h]
    exact mem_b64Chars_ne_pad _ (List.getElem_mem h)
  · rw [b64Char, List.getD_eq_default]
    · decide
    · omega

theorem b64Val_b64Char : ∀ n : Fin 64, b64Val (b64Char n.val) = some n.val := by decide

theorem byteOf_eq (n : Nat) (a : Fin 256) (h : n = a.val) : byteOf n = a := by
  subst h
  apply Fin.ext
  simp [byteOf, Nat.mod_eq_of_lt a.isLt]

theorem b64DecodeList_cons4 (w x y z : Char) (rest : Str) (vw vx : Nat)
    (hw : b64Val w = some vw) (hx : b64Val x = some vx) :
    b64DecodeList (w :: x :: y :: z :: rest) =
      if y = '=' ∧ z = '=' ∧ rest = [] then
        some [byteOf (vw * 4 + vx / 16)]
      else if z = '=' ∧ rest = [] then
        match b64Val y with
        | some vy => some [byteOf (vw * 4 + vx / 16), byteOf (vx % 16 * 16 + vy / 4)]
        | none => none
      else
        match b64Val y, b64Val z, b64DecodeList rest with
        | some vy, some vz, some bs =>
          some (byteOf (vw * 4 + vx / 16) :: byteOf (vx % 16 * 16 + vy / 4) ::
            byteOf (vy % 4 * 64 + vz) :: bs)
        | _, _, _ => none := by
  simp only [b64DecodeList]
  rw [hw, hx]

theorem b64_decode_encode : ∀ l : List (Fin 256), b64DecodeList (b64EncodeList l) = some l
  | [] => rfl
  | [a] => by
    have h1 : b64Val (b64Char (a.val / 4)) = some (a.val / 4) :=
      b64Val_b64Char ⟨a.val / 4, by omega⟩
    have h2 : b64Val (b64Char (a.val % 4 * 16)) = some (a.val % 4 * 16) :=
      b64Val_b64Char ⟨a.val % 4 * 16, by omega⟩
    have he : b64EncodeList [a] =
        b64Char (a.val / 4) :: b64Char (a.val % 4 * 16) :: '=' :: '=' :: [] := rfl
    rw [he, b64DecodeList_cons4 _ _ _ _ _ _ _ h1 h2, if_pos ⟨rfl, rfl, rfl⟩]
    refine congrArg some ?_
    refine congrArg (fun x => [x]) ?_
    exact byteOf_eq _ a (by omega)
  | [a, b] => by
    have h1 : b64Val (b64Char (a.val / 4)) = some (a.val / 4) :=
      b64Val_b64Char ⟨a.val / 4, by omega⟩
    have h2 : b64Val (b64Char (a.val % 4 * 16 + b.val / 16)) =
        some (a.val % 4 * 16 + b.val / 16) :=
      b64Val_b64Char ⟨a.val % 4 * 16 + b.val / 16, by omega⟩
    have h3 : b64Val (b64Char (b.val % 16 * 4)) = some (b.val % 16 * 4) :=
      b64Val_b64Char ⟨b.val % 16 * 4, by omega⟩
    have he : b64EncodeList [a, b] =
        b64Char (a.val / 4) :: b64Char (a.val % 4 * 16 + b.val / 16) ::
          b64Char (b.val % 16 * 4) :: '=' :: [] := rfl
    rw [he, b64DecodeList_cons4 _ _ _ _ _ _ _ h1 h2,
      if_neg (fun hc => b64Char_ne_pad _ hc.1), if_pos ⟨rfl, rfl⟩, h3]
    show some [byteOf _, byteOf _] = some [a, b]
    have e1 : byteOf (a.val / 4 * 4 + (a.val % 4 * 16 + b.val / 16) / 16) = a :=
      byteOf_eq _ a (by omega)
    have e2 : byteOf ((a.val % 4 * 16 + b.val / 16) % 16 * 16 + b.val % 16 * 4 / 4) = b :=
      byteOf_eq _ b (by omega)
    rw [e1, e2]
  | a :: b :: c :: rest => by
    have ih := b64_decode_encode rest
    have h1 : b64Val (b64Char (a.val / 4)) = some (a.val / 4) :=
      b64Val_b64Char ⟨a.val / 4, by omega⟩
    have h2 : b64Val (b64Char (a.val % 4 * 16 + b.val / 16)) =
        some (a.val % 4 * 16 + b.val / 16) :=
      b64Val_b64Char ⟨a.val % 4 * 16 + b.val / 16, by omega⟩
    have h3 : b64Val (b64Char (b.val % 16 * 4 + c.val / 64)) =
        some (b.val % 16 * 4 + c.val / 64) :=
      b64Val_b64Char ⟨b.val % 16 * 4 + c.val / 64, by omega⟩
    have h4 : b64Val (b64Char (c.val % 64)) = some (c.val % 64) :=
      b64Val_b64Char ⟨c.val % 64, by omega⟩
    have he : b64EncodeList (a :: b :: c :: rest) =
        b64Char (a.val / 4) :: b64Char (a.val % 4 * 16 + b.val / 16) ::
          b64Char (b.val % 16 * 4 + c.val / 64) :: b64Char (c.val % 64) ::
          b64EncodeList rest := rfl
    rw [he, b64DecodeList_cons4 _ _ _ _ _ _ _ h1 h2,
      if_neg (fun hc => b64Char_ne_pad _ hc.1),
      if_neg (fun hc => b64Char_ne_pad _ hc.1), h3, h4, ih]
    show some (byteOf _ :: byteOf _ :: byteOf _ :: rest) = some (a :: b :: c :: rest)
    have e1 : byteOf (a.val / 4 * 4 + (a.val % 4 * 16 + b.val / 16) / 16) = a :=
      byteOf_eq _ a (by omega)
    have e2 : byteOf ((a.val % 4 * 16 + b.val / 16) % 16 * 16 +
        (b.val % 16 * 4 + c.val / 64) / 4) = b :=
      byteOf_eq _ b (by omega)
    have e3 : byteOf ((b.val % 16 * 4 + c.val / 64) % 4 * 64 + c.val % 64) = c :=
      byteOf_eq _ c (by omega)
    rw [e1, e2, e3]

theorem b64Encode_no_dot : ∀ l : List (Fin 256), '.' ∉ b64EncodeList l
  | [] => by simp [b64EncodeList]
  | [a] => by
    simp only [b64EncodeList, List.mem_cons, List.not_mem_nil, or_false]
    intro hc
    rcases hc with h | h | h | h
    · exact b64Char_ne_dot _ h.symm
    · exact b64Char_ne_dot _ h.symm
    · exact absurd h (by decide)
    · exact absurd h (by decide)
  | [a, b] => by
    simp only [b64EncodeList, List.mem_cons, List.not_mem_nil, or_false]
    intro hc
    rcases hc with h | h | h | h
    · exact b64Char_ne_dot _ h.symm
    · exact b64Char_ne_dot _ h.symm
    · exact b64Char_ne_dot _ h.symm
    · exact absurd h (by decide)
  | a :: b :: c :: rest => by
    have ih := b64Encode_no_dot rest
    simp only [b64EncodeList, List.mem_cons]
    intro hc
    rcases hc with h | h | h | h | h
    · exact b64Char_ne_dot _ h.symm
    · exact b64Char_ne_dot _ h.symm
    · exact b64Char_ne_dot _ h.symm
    · exact b64Char_ne_dot _ h.symm
    · exact ih h

end B64

namespace Req

theorem clauseCandidate_error (size : Int) (cl : Str) (e : RangeError)
    (h : clauseCandidate size cl = .error e) :
    e = .invalidFormat ∨ e = .invalidStart ∨ e = .invalidEnd := by
  simp only [clauseCandidate] at h
  repeat' split at h
  all_goals first
    | exact Except.noConfusion h
    | (injection h with h2; subst h2; decide)

theorem processClause_cand_error (size : Int) (cl : Str) (e : RangeError)
    (hc : clauseCandidate size cl = .error e) : processClause size cl = .error e := by
  unfold processClause
  rw [hc]

theorem processClause_cand_none (size : Int) (cl : Str)
    (hc : clauseCandidate size cl = .ok none) : processClause size cl = .ok none := by
  unfold processClause
  rw [hc]

theorem processClause_cand_some (size : Int) (cl : Str) (p : Int × Int)
    (hc : clauseCandidate size cl = .ok (some p)) :
    processClause size cl =
      if unsatisfiable size p = true then .ok none else .ok (some p) := by
  unfold processClause
  rw [hc]

theorem processClause_error (size : Int) (cl : Str) (e : RangeError)
    (h : processClause size cl = .error e) :
    e = .invalidFormat ∨ e = .invalidStart ∨ e = .invalidEnd := by
  cases hc : clauseCandidate size cl with
  | error e2 =>
    rw [processClause_cand_error size cl e2 hc] at h
    injection h with h2
    exact h2 ▸ clauseCandidate_error size cl e2 hc
  | ok o =>
    cases o with
    | none =>
      rw [processClause_cand_none size cl hc] at h
      exact Except.noConfusion h
    | some p =>
      rw [processClause_cand_some size cl p hc] at h
      split at h <;> exact Except.noConfusion h

theorem processClauses_cons_error (size : Int) (cl : Str) (rest : List Str) (e : RangeError)
    (hc : processClause size cl = .error e) :
    processClauses size (cl :: rest) = .error e := by
  simp only [processClauses]
  rw [hc]

theorem processClauses_cons_none (size : Int) (cl : Str) (rest : List Str)
    (hc : processClause size cl = .ok none) :
    processClauses size (cl :: rest) = processClauses size rest := by
  simp only [processClauses]
  rw [hc]

theorem processClauses_cons_some (size : Int) (cl : Str) (rest : List Str) (p : Int × Int)
    (hc : processClause size cl = .ok (some p)) :
    processClauses size (cl :: rest) =
      match processClauses size rest with
      | .error e => .error e
      | .ok l => .ok (p :: l) := by
  simp only [processClauses]
  rw [hc]

theorem processClauses_error (size : Int) (cls : List Str) (e : RangeError)
    (h : processClauses size cls = .error e) :
    e = .invalidFormat ∨ e = .invalidStart ∨ e = .invalidEnd := by
  induction cls with
  | nil => exact Except.noConfusion h
  | cons cl rest ih =>
    cases hc : processClause size cl with
    | error e2 =>
      rw [processClauses_cons_error size cl rest e2 hc] at h
      injection h with h2
      exact h2 ▸ processClause_error size cl e2 hc
    | ok o =>
      cases o with
      | none =>
        rw [processClauses_cons_none size cl rest hc] at h
        exact ih h
      | some p =>
        rw [processClauses_cons_some size cl rest p hc] at h
        cases hrest : processClauses size rest with
        | error e3 =>
          rw [hrest] at h
          injection h with h2
          apply ih
          rw [hrest, h2]
        | ok l =>
          rw [hrest] at h
          exact Except.noConfusion h

theorem processClauses_ok (size : Int) (cls : List Str) (l : List (Int × Int))
    (h : processClauses size cls = .ok l) :
    l = cls.filterMap (clauseKept size) := by
  induction cls generalizing l with
  | nil =>
    injection h with h2
    simp [← h2]
  | cons cl rest ih =>
    cases hc : processClause size cl with
    | error e2 =>
      rw [processClauses_cons_error size cl rest e2 hc] at h
      exact Except.noConfusion h
    | ok o =>
      cases o with
      | none =>
        rw [processClauses_cons_none size cl rest hc] at h
        have hk : clauseKept size cl = none := by
          unfold clauseKept
          rw [hc]
        rw [List.filterMap_cons, hk]
        exact ih l h
      | some p =>
        rw [processClauses_cons_some size cl rest p hc] at h
        cases hrest : processClauses size rest with
        | error e3 =>
          rw [hrest] at h
          exact Except.noConfusion h
        | ok l2 =>
          rw [hrest] at h
          injection h with h2
          have hk : clauseKept size cl = some p := by
            unfold clauseKept
            rw [hc]
          rw [List.filterMap_cons, hk, ← h2, ih l2 hrest]

theorem clauseCandidate_empty (size : Int) (cl : Str) (h : trimSpace cl = []) :
    clauseCandidate size cl = .ok none := by
  simp [clauseCandidate, h]

theorem clauseCandidate_no_dash (size : Int) (cl : Str) (h1 : trimSpace cl ≠ [])
    (h2 : (splitAtFirstChar '-' (trimSpace cl)).2 = none) :
    clauseCandidate size cl = .error .invalidFormat := by
  simp only [clauseCandidate]
  rw [if_neg h1]
  cases hsp : splitAtFirstChar '-' (trimSpace cl) with
  | mk s1 o =>
    cases o with
    | none => rfl
    | some s2 =>
      rw [hsp] at h2
      exact absurd h2 (by simp)

theorem clauseCandidate_split (size : Int) (cl s1 s2 : Str) (h1 : trimSpace cl ≠ [])
    (hsp : splitAtFirstChar '-' (trimSpace cl) = (s1, some s2)) :
    clauseCandidate size cl =
      match (if trimSpace s1 = [] then some 0 else parseInt64 (trimSpace s1)) with
      | none => .error .invalidStart
      | some st =>
        match (if trimSpace s2 = [] then some 0 else parseInt64 (trimSpace s2)) with
        | none => .error .invalidEnd
        | some en =>
          if trimSpace s1 = [] then .ok (some (size - en, size - 1))
          else if trimSpace s2 = [] then .ok (some (st, size - 1))
          else .ok (some (st, en)) := by
  simp only [clauseCandidate]
  rw [if_neg h1, hsp]

theorem clauseCandidate_bad_start (size : Int) (cl s1 s2 : Str)
    (hsp : splitAtFirstChar '-' (trimSpace cl) = (s1, some s2))
    (h1 : trimSpace cl ≠ []) (hs : trimSpace s1 ≠ [])
    (hp : parseInt64 (trimSpace s1) = none) :
    clauseCandidate size cl = .error .invalidStart := by
  rw [clauseCandidate_split size cl s1 s2 h1 hsp, if_neg hs, hp]

theorem clauseCandidate_bad_end (size : Int) (cl s1 s2 : Str) (st : Int)
    (hsp : splitAtFirstChar '-' (trimSpace cl) = (s1, some s2))
    (h1 : trimSpace cl ≠ [])
    (hst : (if trimSpace s1 = [] then some 0 else parseInt64 (trimSpace s1)) = some st)
    (he : trimSpace s2 ≠ []) (hp : parseInt64 (trimSpace s2) = none) :
    clauseCandidate size cl = .error .invalidEnd := by
  rw [clauseCandidate_split size cl s1 s2 h1 hsp, hst, if_neg he, hp]

theorem processClauses_of_clause_error (size : Int) (cls : List Str)
    (h : ∃ cl ∈ cls, ∃ e, processClause size cl = .error e) :
    ∃ e2, (e2 = RangeError.invalidFormat ∨ e2 = RangeError.invalidStart ∨
      e2 = RangeError.invalidEnd) ∧ processClauses size cls = .error e2 := by
  induction cls with
  | nil =>
    rcases h with ⟨cl, hmem, _⟩
    exact absurd hmem (List.not_mem_nil cl)
  | cons cl rest ih =>
    cases hc : processClause size cl with
    | error e2 =>
      exact ⟨e2, processClause_error size cl e2 hc,
        processClauses_cons_error size cl rest e2 hc⟩
    | ok o =>
      rcases h with ⟨cl0, hmem, e0, he0⟩
      have hmem2 : cl0 ∈ rest := by
        rcases List.mem_cons.mp hmem with heq | hm
        · subst heq
          rw [hc] at he0
          exact Except.noConfusion he0
        · exact hm
      rcases ih ⟨cl0, hmem2, e0, he0⟩ with ⟨e2, hclass, hrest⟩
      cases o with
      | none =>
        refine ⟨e2, hclass, ?_⟩
        rw [processClauses_cons_none size cl rest hc]
        exact hrest
      | some p =>
        refine ⟨e2, hclass, ?_⟩
        rw [processClauses_cons_some size cl rest p hc, hrest]

theorem processClause_bounds (size : Int) (cl : Str) (s e : Int)
    (h : processClause size cl = .ok (some (s, e))) :
    s ≤ e ∧ 0 ≤ s ∧ e < size := by
  cases hc : clauseCandidate size cl with
  | error e2 =>
    rw [processClause_cand_error size cl e2 hc] at h
    exact Except.noConfusion h
  | ok o =>
    cases o with
    | none =>
      rw [processClause_cand_none size cl hc] at h
      injection h with h2
      exact Option.noConfusion h2
    | some p =>
      rw [processClause_cand_some size cl p hc] at h
      by_cases hu : unsatisfiable size p = true
      · rw [if_pos hu] at h
        injection h with h2
        exact Option.noConfusion h2
      · rw [if_neg hu] at h
        injection h with h2
        injection h2 with h3
        subst h3
        simp only [unsatisfiable, Bool.or_eq_true, decide_eq_true_eq, not_or] at hu
        omega

end Req

namespace Resp

theorem countWriteHeader_append (a b : List UnderlyingEvent) :
    countWriteHeader (a ++ b) = countWriteHeader a + countWriteHeader b := by
  simp [countWriteHeader, List.countP_append]

theorem countWriteHeader_wh (code : Nat) :
    countWriteHeader [UnderlyingEvent.writeHeader code] = 1 := rfl

theorem countWriteHeader_w (body : List Nat) :
    countWriteHeader [UnderlyingEvent.write body] = 0 := rfl

theorem countWriteHeader_wh_w (code : Nat) (body : List Nat) :
    countWriteHeader [UnderlyingEvent.writeHeader code, UnderlyingEvent.write body] = 1 := rfl

theorem WriteHeader_of_written (w : wrappedWriter) (code : Nat)
    (h : w.statusCodeWritten = true) : WriteHeader w code = w := by
  simp [WriteHeader, h]

theorem WriteHeader_of_unwritten (w : wrappedWriter) (code : Nat)
    (h : w.statusCodeWritten = false) :
    WriteHeader w code =
      { statusCode := code, statusCodeWritten := true,
        underlying := w.underlying ++ [.writeHeader code] } := by
  simp [WriteHeader, h]

theorem WriteHeader_written (w : wrappedWriter) (code : Nat) :
    (WriteHeader w code).statusCodeWritten = true := by
  by_cases h : w.statusCodeWritten
  · simp [WriteHeader_of_written w code h, h]
  · simp [WriteHeader_of_unwritten w code (by simpa using h)]

theorem Write_of_written (w : wrappedWriter) (body : List Nat)
    (h : w.statusCodeWritten = true) :
    Write w body = { w with underlying := w.underlying ++ [.write body] } := by
  simp [Write, h]

theorem Write_written (w : wrappedWriter) (body : List Nat) :
    (Write w body).statusCodeWritten = true := by
  by_cases h : w.statusCodeWritten
  · simp [Write, h]
  · simp [Write, h, WriteHeader_written]

theorem applyOp_of_written (w : wrappedWriter) (op : ROp)
    (h : w.statusCodeWritten = true) :
    (applyOp w op).statusCode = w.statusCode ∧
      (applyOp w op).statusCodeWritten = true ∧
      countWriteHeader (applyOp w op).underlying = countWriteHeader w.underlying := by
  cases op with
  | status code =>
    simp [applyOp, Status, WriteHeader_of_written _ _ h, h]
  | sendStatus code =>
    simp [applyOp, SendStatus, WriteHeader_of_written _ _ h, Write_of_written _ _ h,
      countWriteHeader_append, countWriteHeader, h]
  | write body =>
    simp [applyOp, Write_of_written _ _ h, countWriteHeader_append, countWriteHeader, h]
  | writeHeader code =>
    simp [applyOp, WriteHeader_of_written _ _ h, h]

theorem runOps_of_written (w : wrappedWriter) (ops : List ROp)
    (h : w.statusCodeWritten = true) :
    (runOps w ops).statusCode = w.statusCode ∧
      (runOps w ops).statusCodeWritten = true ∧
      countWriteHeader (runOps w ops).underlying = countWriteHeader w.underlying := by
  induction ops generalizing w with
  | nil => exact ⟨rfl, h, rfl⟩
  | cons op rest ih =>
    have h1 := applyOp_of_written w op h
    have h2 := ih (applyOp w op) h1.2.1
    simp only [runOps, List.foldl_cons] at h2 ⊢
    exact ⟨h2.1.trans h1.1, h2.2.1, h2.2.2.trans h1.2.2⟩

theorem applyOp_inv (w : wrappedWriter) (op : ROp)
    (h : countWriteHeader w.underlying = if w.statusCodeWritten then 1 else 0) :
    countWriteHeader (applyOp w op).underlying =
      if (applyOp w op).statusCodeWritten then 1 else 0 := by
  by_cases hw : w.statusCodeWritten
  · have h3 := applyOp_of_written w op hw
    rw [h3.2.2, h3.2.1, h, if_pos hw]
    simp
  · have hw' : w.statusCodeWritten = false := by simpa using hw
    rw [if_neg hw] at h
    cases op with
    | status code =>
      have h1 := WriteHeader_of_unwritten w code hw'
      have h2 : applyOp w (ROp.status code) = WriteHeader (WriteHeader w code) code := rfl
      rw [h2, h1, WriteHeader_of_written _ code rfl]
      simp [countWriteHeader_append, countWriteHeader_wh, h]
    | sendStatus code =>
      have h1 := WriteHeader_of_unwritten w code hw'
      have h2 : applyOp w (ROp.sendStatus code) = Write (WriteHeader w code) [code] := rfl
      rw [h2, h1, Write_of_written _ _ rfl]
      simp [countWriteHeader_append, countWriteHeader_wh, countWriteHeader_w,
        countWriteHeader_wh_w, h]
    | write body =>
      simp [applyOp, Write, hw', WriteHeader_of_unwritten w 200 hw',
        countWriteHeader_append, countWriteHeader_wh, countWriteHeader_w,
        countWriteHeader_wh_w, h]
    | writeHeader code =>
      simp [applyOp, WriteHeader_of_unwritten w code hw',
        countWriteHeader_append, countWriteHeader_wh, h]

theorem runOps_inv (w : wrappedWriter) (ops : List ROp)
    (h : countWriteHeader w.underlying = if w.statusCodeWritten then 1 else 0) :
    countWriteHeader (runOps w ops).underlying =
      if (runOps w ops).statusCodeWritten then 1 else 0 := by
  induction ops generalizing w with
  | nil => exact h
  | cons op rest ih =>
    simp only [runOps, List.foldl_cons] at ih ⊢
    exact ih (applyOp w op) (applyOp_inv w op h)

end Resp

/-! ### Claim theorems (C1, C2, C3, C10) -/

/-- C1: the effective middleware of any node equals the concatenation of
its ancestors' own middleware (root first) followed by the node's own
middleware — for a root node, with no ancestors, exactly its own; the value
is unchanged when read back from a cache filled by a first computation, and
any cache the call leaves behind holds that same value; and every entry the
dispatcher walk registers with the path matcher carries exactly that
effective middleware followed by the entry's own handlers, in that order,
with no other handlers (`traverseSpec` states the shape in the spec's
words). -/
theorem effective_middleware_correct :
    (∀ (anc : List (List Rt.Handler)) (rootNode : Bool) (cached : Option (List Rt.Handler))
        (own : List Rt.Handler),
      (rootNode = true → anc = []) →
      (∀ v, cached = some v → v = anc.flatten ++ own) →
      Rt.fetchMiddleware anc rootNode cached own = anc.flatten ++ own ∧
        (∀ v, Rt.fetchMiddlewareCache anc rootNode cached own = some v → v = anc.flatten ++ own)) ∧
    (∀ (anc : List (List Rt.Handler)) (rootNode : Bool) (cached : Option (List Rt.Handler))
        (own hs : List Rt.Handler),
      (rootNode = true → anc = []) →
      (∀ v, cached = some v → v = anc.flatten ++ own) →
      Rt.combineHandlers anc rootNode cached own hs = anc.flatten ++ own ++ hs) ∧
    (∀ t : Rt.route, Rt.traverseAndConfigure [] true t = Rt.traverseSpec [] t) := by
  refine ⟨?_, ?_, Rt.traverse_root_eq_spec⟩
  · intro anc rootNode cached own hroot hcache
    exact ⟨Rt.fetchMiddleware_eq anc rootNode cached own hroot hcache,
      Rt.fetchMiddlewareCache_eq anc rootNode cached own hcache⟩
  · intro anc rootNode cached own hs hroot hcache
    simp [Rt.combineHandlers, Rt.fetchMiddleware_eq anc rootNode cached own hroot hcache]

/-- Witness for C1 at concrete inputs: a non-root node with ancestor
middleware `[1]` then `[2]`, own middleware `[3]` and entry handlers `[4]`
combines to `[1, 2, 3, 4]`, and the dispatcher walk of a two-level tree
registers exactly the inherited-plus-own chains. -/
theorem effective_middleware_correct_witness :
    Rt.combineHandlers [[1], [2]] false none [3] [4] = [1, 2, 3, 4] ∧
    Rt.traverseAndConfigure [] true
        (Rt.route.mk [5] [⟨[], [7], []⟩] [Rt.route.mk [6] [⟨[], [8], []⟩] []]) =
      Rt.traverseSpec []
        (Rt.route.mk [5] [⟨[], [7], []⟩] [Rt.route.mk [6] [⟨[], [8], []⟩] []]) := by
  constructor
  · have h := effective_middleware_correct.2.1 [[1], [2]] false none [3] [4]
      (by simp) (by simp)
    simpa using h
  · exact effective_middleware_correct.2.2
      (Rt.route.mk [5] [⟨[], [7], []⟩] [Rt.route.mk [6] [⟨[], [8], []⟩] []])

/-- C2: `next` on an empty handler chain yields the 404 Not-Found terminal,
invokes no handler and leaves the chain empty; `next` on a non-empty chain
removes exactly the head handler from the chain state and invokes it with
the response, the request, and `next` itself (over the shortened context)
as continuation, so the chain length strictly decreases on every
invocation. -/
theorem next_chain_step :
    (∀ (c : Ctx.ReqContext) (rw rq : Nat), c.handlers = [] →
      Ctx.next c rw rq = (.notFound404, c)) ∧
    (∀ (c : Ctx.ReqContext) (rw rq h : Nat) (t : List Nat), c.handlers = h :: t →
      Ctx.next c rw rq = (.invoke h rw rq t, { handlers := t }) ∧
        t.length < c.handlers.length) := by
  constructor
  · intro c rw rq hc
    simp [Ctx.next, hc]
  · intro c rw rq h t hc
    simp [Ctx.next, hc]

/-- Witness for C2: the empty chain 404s without invoking anything, and a
two-handler chain pops exactly its head. -/
theorem next_chain_step_witness :
    Ctx.next { handlers := [] } 0 1 = (.notFound404, { handlers := [] }) ∧
    Ctx.next { handlers := [5, 6] } 0 1 = (.invoke 5 0 1 [6], { handlers := [6] }) ∧
    [6].length < [5, 6].length := by
  refine ⟨next_chain_step.1 { handlers := [] } 0 1 rfl, ?_⟩
  have h := next_chain_step.2 { handlers := [5, 6] } 0 1 5 [6] rfl
  exact ⟨h.1, h.2⟩

/-- C3: the dispatcher walk inside `ServeHTTP` is guarded by the
`sync.Once` latch: the first call flips the latch and registers the walk's
entries, a call on a latched state performs no registration at all, serving
is idempotent, and two served requests leave exactly the registered-entry
set of one. -/
theorem configure_routes_once :
    (∀ (tree : Rt.route) (s : Rt.AppState), (Rt.ServeHTTPConfigure tree s).configured = true) ∧
    (∀ (tree : Rt.route) (s : Rt.AppState), s.configured = true →
      Rt.ServeHTTPConfigure tree s = s) ∧
    (∀ (tree : Rt.route) (s : Rt.AppState),
      Rt.ServeHTTPConfigure tree (Rt.ServeHTTPConfigure tree s) = Rt.ServeHTTPConfigure tree s) ∧
    (∀ tree : Rt.route,
      (Rt.ServeHTTPConfigure tree (Rt.ServeHTTPConfigure tree Rt.initialAppState)).registered =
        (Rt.ServeHTTPConfigure tree Rt.initialAppState).registered) := by
  have h1 : ∀ (tree : Rt.route) (s : Rt.AppState),
      (Rt.ServeHTTPConfigure tree s).configured = true := by
    intro tree s
    by_cases hs : s.configured
    · simp [Rt.ServeHTTPConfigure, hs]
    · simp [Rt.ServeHTTPConfigure, hs]
  have h2 : ∀ (tree : Rt.route) (s : Rt.AppState), s.configured = true →
      Rt.ServeHTTPConfigure tree s = s := by
    intro tree s hs
    simp [Rt.ServeHTTPConfigure, hs]
  refine ⟨h1, h2, ?_, ?_⟩
  · intro tree s
    exact h2 tree _ (h1 tree s)
  · intro tree
    rw [h2 tree _ (h1 tree Rt.initialAppState)]

/-- Witness for C3: on a concrete one-node tree, a second `ServeHTTP` after
the first changes nothing. -/
theorem configure_routes_once_witness :
    Rt.ServeHTTPConfigure (Rt.route.mk [1] [⟨[], [2], []⟩] [])
        (Rt.ServeHTTPConfigure (Rt.route.mk [1] [⟨[], [2], []⟩] []) Rt.initialAppState) =
      Rt.ServeHTTPConfigure (Rt.route.mk [1] [⟨[], [2], []⟩] []) Rt.initialAppState ∧
    Rt.ServeHTTPConfigure (Rt.route.mk [1] [⟨[], [2], []⟩] [])
        { configured := true, registered := [] } =
      { configured := true, registered := [] } :=
  ⟨configure_routes_once.2.2.1 (Rt.route.mk [1] [⟨[], [2], []⟩] []) Rt.initialAppState,
    configure_routes_once.2.1 (Rt.route.mk [1] [⟨[], [2], []⟩] [])
      { configured := true, registered := [] } rfl⟩

/-- C10: with "trust proxy" enabled and an absent or empty X-Forwarded-For
header, the decorated request's `Ips` is the one-element list containing
the empty string, and `Ips` is the empty list exactly when "trust proxy" is
disabled. -/
theorem trust_proxy_ips :
    Req.requestIps true [] = [[]] ∧
    (∀ (tp : Bool) (xff : Str), Req.requestIps tp xff = [] ↔ tp = false) := by
  constructor
  · rfl
  · intro tp xff
    cases tp with
    | false => simp [Req.requestIps]
    | true =>
      simp only [Req.requestIps, if_true]
      constructor
      · intro h
        exact absurd (List.map_eq_nil_iff.mp h) (splitOnChar_ne_nil ',' xff)
      · intro h
        exact absurd h (by simp)

/-- C4: the response sink is write-once: the first `WriteHeader` or first
body `Write` commits the status, after which the status code never changes
and no further header write reaches the platform writer; over any sequence
of `Status`/`SendStatus`/`Write`/`WriteHeader` calls on a fresh response
the underlying header-write primitive is invoked at most once; and
`Status` on an already-committed response (the source calls
`ww.WriteHeader` twice) is the identity. -/
theorem status_write_once :
    (∀ ops : List Resp.ROp,
      Resp.countWriteHeader (Resp.runOps Resp.wrapWriter ops).underlying ≤ 1) ∧
    (∀ (w : Resp.wrappedWriter) (code : Nat),
      (Resp.WriteHeader w code).statusCodeWritten = true) ∧
    (∀ (w : Resp.wrappedWriter) (body : List Nat),
      (Resp.Write w body).statusCodeWritten = true) ∧
    (∀ (w : Resp.wrappedWriter) (ops : List Resp.ROp), w.statusCodeWritten = true →
      (Resp.runOps w ops).statusCode = w.statusCode ∧
        Resp.countWriteHeader (Resp.runOps w ops).underlying =
          Resp.countWriteHeader w.underlying) ∧
    (∀ (w : Resp.wrappedWriter) (code : Nat), w.statusCodeWritten = true →
      Resp.Status w code = w) := by
  refine ⟨?_, Resp.WriteHeader_written, Resp.Write_written, ?_, ?_⟩
  · intro ops
    have h := Resp.runOps_inv Resp.wrapWriter ops rfl
    rw [h]
    by_cases hw : (Resp.runOps Resp.wrapWriter ops).statusCodeWritten
    · simp [hw]
    · simp [hw]
  · intro w ops h
    have h2 := Resp.runOps_of_written w ops h
    exact ⟨h2.1, h2.2.2⟩
  · intro w code h
    rw [Resp.Status, Resp.WriteHeader_of_written w code h, Resp.WriteHeader_of_written w code h]

/-- Witness for C4: a concrete call sequence with two `Status` calls, a
`SendStatus` and a body write reaches the platform header-write primitive
exactly at most once, a committed writer keeps its status code across
further calls, and `Status` on a committed writer changes nothing. -/
theorem status_write_once_witness :
    Resp.countWriteHeader (Resp.runOps Resp.wrapWriter
        [.status 404, .status 500, .sendStatus 200, .write [1]]).underlying ≤ 1 ∧
    (Resp.runOps ⟨404, true, [.writeHeader 404]⟩ [.status 500, .write [9]]).statusCode = 404 ∧
    Resp.Status ⟨404, true, [.writeHeader 404]⟩ 500 =
      (⟨404, true, [.writeHeader 404]⟩ : Resp.wrappedWriter) := by
  refine ⟨status_write_once.1 _, ?_, ?_⟩
  · exact (status_write_once.2.2.2.1
      ⟨404, true, [.writeHeader 404]⟩ [.status 500, .write [9]] rfl).1
  · exact status_write_once.2.2.2.2 ⟨404, true, [.writeHeader 404]⟩ 500 rfl

/-- Counterexample to C9 as stated: `Vary` does not validate the field
name against the RFC 7231 token grammar — the field `"a b"`, which is not
a token (a space is not a `tchar`), is accepted and written into the Vary
header verbatim. -/
theorem vary_accepts_non_token :
    Resp.isToken7231 [ 'a', ' ', 'b' ] = false ∧
    Resp.varyApply [] [ 'a', ' ', 'b' ] = [ 'a', ' ', 'b' ] := by
  decide

/-- C9 amended: `Vary(field)` validates only that the field is non-empty
(an empty field is logged and the header left unchanged); it merges the
field into any existing Vary header, leaving the header unchanged when the
field already occurs among the trimmed comma-separated entries and
appending it otherwise; a `*` in either the new field or the existing
header collapses the whole header to `*`; in particular `Vary("Origin")`
with no existing header makes the header exactly `"Origin"`, and a
subsequent `Vary("*")` makes it exactly `"*"`. -/
theorem vary_merge :
    Resp.varyApply [] [ 'O', 'r', 'i', 'g', 'i', 'n' ] = [ 'O', 'r', 'i', 'g', 'i', 'n' ] ∧
    Resp.varyApply [ 'O', 'r', 'i', 'g', 'i', 'n' ] [ '*' ] = [ '*' ] ∧
    (∀ e : Str, Resp.varyApply e [] = e) ∧
    (∀ e f : Str, f ≠ [] → (e = [ '*' ] ∨ f = [ '*' ]) → Resp.varyApply e f = [ '*' ]) ∧
    (∀ e f : Str, f ≠ [] → e ≠ [ '*' ] → f ≠ [ '*' ] →
      f ∈ (splitOnChar ',' e).map trimSpace → Resp.varyApply e f = e) ∧
    (∀ e f : Str, f ≠ [] → e ≠ [ '*' ] → f ≠ [ '*' ] →
      f ∉ (splitOnChar ',' e).map trimSpace →
      Resp.varyApply e f = if e = [] then f else e ++ ',' :: ' ' :: f) := by
  refine ⟨by decide, by decide, ?_, ?_, ?_, ?_⟩
  · intro e
    simp [Resp.varyApply, Resp.Vary]
  · intro e f hf hstar
    simp [Resp.varyApply, Resp.Vary, hf, hstar]
  · intro e f hf he hfs hmem
    have hany : (splitOnChar ',' e).any (fun x => trimSpace x == f) = true := by
      rw [List.any_eq_true]
      rcases List.mem_map.mp hmem with ⟨x, hx, hxf⟩
      exact ⟨x, hx, by simp [hxf]⟩
    simp [Resp.varyApply, Resp.Vary, hf, he, hfs, hany]
  · intro e f hf he hfs hmem
    have hany : (splitOnChar ',' e).any (fun x => trimSpace x == f) = false := by
      rw [List.any_eq_false]
      intro x hx
      simp only [beq_iff_eq]
      intro hxf
      exact hmem (List.mem_map.mpr ⟨x, hx, hxf⟩)
    simp [Resp.varyApply, Resp.Vary, hf, he, hfs, hany]

/-- Witness for C9: the two spec examples, the empty-field no-op, the
star collapse, the duplicate no-op and the append case at concrete
inputs. -/
theorem vary_merge_witness :
    Resp.varyApply [ 'A' ] [] = [ 'A' ] ∧
    Resp.varyApply [ 'A' ] [ '*' ] = [ '*' ] ∧
    Resp.varyApply [ 'A', ',', ' ', 'B' ] [ 'B' ] = [ 'A', ',', ' ', 'B' ] ∧
    Resp.varyApply [ 'A' ] [ 'B' ] = [ 'A', ',', ' ', 'B' ] := by
  refine ⟨vary_merge.2.2.1 [ 'A' ], ?_, ?_, ?_⟩
  · exact vary_merge.2.2.2.1 [ 'A' ] [ '*' ] (by decide) (Or.inr rfl)
  · exact vary_merge.2.2.2.2.1 [ 'A', ',', ' ', 'B' ] [ 'B' ]
      (by decide) (by decide) (by decide) (by decide)
  · have h := vary_merge.2.2.2.2.2 [ 'A' ] [ 'B' ]
      (by decide) (by decide) (by decide) (by decide)
    simpa using h

/-- Counterexample to C5 as stated: in `bytes=5--3` the required end bound
`-3` does not parse as a non-negative integer, yet `Range` with size 1000
does not fail with an invalid-format error: under the source's signed
`ParseInt` the clause yields the candidate pair (5, -3), which the
unsatisfiability filter silently discards, so the call fails with the
unsatisfiable-range error instead. -/
theorem range_negative_bound_not_invalid_format :
    Req.parsesAsNonNegInt [ '-', '3' ] = false ∧
    Req.clauseCandidate 1000 ("5--3".toList) = .ok (some (5, -3)) ∧
    Req.Range ("bytes=5--3".toList) 1000 = .error .noSatisfiable :=
  ⟨rfl, rfl, rfl⟩

/-- C5 amended: `Range(totalSize)` on a header starting with `bytes=`
fails with an invalid-format-class error when a non-blank clause lacks a
`-` (invalid format) or when a present bound fails the signed 64-bit
integer parse (invalid start / invalid end value) — a bound that parses
to a negative value is instead carried into the satisfiability filter,
and a clause that trims to the empty string is skipped, not rejected;
each candidate pair that is unsatisfiable (start > end, start < 0, or
end ≥ totalSize) is silently discarded while satisfiable ones are kept;
every returned pair is satisfiable; the result is exactly the kept pairs
in input order; and the call fails with the unsatisfiable-range error
exactly when zero pairs remain.  The last two conjuncts propagate a bad
clause: any clause error makes the whole clause loop fail with an
invalid-format-class error, and that error is the result of the whole
`Range` call.  In particular `bytes=0-499` with size 1000 yields exactly
[(0, 499)], `bytes=1000-2000` with size 500 the unsatisfiable-range
error, and `bytes=0-499,1000-1500` with size 1000 exactly [(0, 499)]. -/
theorem range_parsing :
    Req.Range ("bytes=0-499".toList) 1000 = .ok [(0, 499)] ∧
    Req.Range ("bytes=1000-2000".toList) 500 = .error .noSatisfiable ∧
    Req.Range ("bytes=0-499,1000-1500".toList) 1000 = .ok [(0, 499)] ∧
    (∀ (size : Int) (cl : Str) (p : Int × Int),
      Req.clauseCandidate size cl = .ok (some p) → Req.unsatisfiable size p = true →
      Req.processClause size cl = .ok none) ∧
    (∀ (size : Int) (cl : Str) (p : Int × Int),
      Req.clauseCandidate size cl = .ok (some p) → Req.unsatisfiable size p = false →
      Req.processClause size cl = .ok (some p)) ∧
    (∀ (size : Int) (cl : Str) (s e : Int),
      Req.processClause size cl = .ok (some (s, e)) → s ≤ e ∧ 0 ≤ s ∧ e < size) ∧
    (∀ (size : Int) (cls : List Str) (l : List (Int × Int)),
      Req.processClauses size cls = .ok l → l = cls.filterMap (Req.clauseKept size)) ∧
    (∀ (header : Str) (size : Int), header ≠ [] →
      strHasPrefix Req.bytesMarker header = true →
      (Req.Range header size = .error .noSatisfiable ↔
        Req.processClauses size (splitOnChar ',' (header.drop 6)) = .ok [])) ∧
    (∀ (size : Int) (cl : Str), trimSpace cl = [] →
      Req.processClause size cl = .ok none) ∧
    (∀ (size : Int) (cl : Str), trimSpace cl ≠ [] →
      (splitAtFirstChar '-' (trimSpace cl)).2 = none →
      Req.processClause size cl = .error .invalidFormat) ∧
    (∀ (size : Int) (cl s1 s2 : Str),
      splitAtFirstChar '-' (trimSpace cl) = (s1, some s2) → trimSpace cl ≠ [] →
      trimSpace s1 ≠ [] → Req.parseInt64 (trimSpace s1) = none →
      Req.processClause size cl = .error .invalidStart) ∧
    (∀ (size : Int) (cl s1 s2 : Str) (st : Int),
      splitAtFirstChar '-' (trimSpace cl) = (s1, some s2) → trimSpace cl ≠ [] →
      (if trimSpace s1 = [] then some 0 else Req.parseInt64 (trimSpace s1)) = some st →
      trimSpace s2 ≠ [] → Req.parseInt64 (trimSpace s2) = none →
      Req.processClause size cl = .error .invalidEnd) ∧
    (∀ (size : Int) (cls : List Str),
      (∃ cl ∈ cls, ∃ e, Req.processClause size cl = .error e) →
      ∃ e2, (e2 = Req.RangeError.invalidFormat ∨ e2 = Req.RangeError.invalidStart ∨
        e2 = Req.RangeError.invalidEnd) ∧ Req.processClauses size cls = .error e2) ∧
    (∀ (header : Str) (size : Int) (e : Req.RangeError), header ≠ [] →
      strHasPrefix Req.bytesMarker header = true →
      Req.processClauses size (splitOnChar ',' (header.drop 6)) = .error e →
      Req.Range header size = .error e) := by
  refine ⟨rfl, rfl, rfl, ?_, ?_, Req.processClause_bounds,
    Req.processClauses_ok, ?_, ?_, ?_, ?_, ?_, Req.processClauses_of_clause_error, ?_⟩
  · intro size cl p hc hu
    rw [Req.processClause_cand_some size cl p hc, if_pos hu]
  · intro size cl p hc hu
    rw [Req.processClause_cand_some size cl p hc, if_neg (by simp [hu])]
  case refine_4 =>
    intro size cl h
    exact Req.processClause_cand_none size cl (Req.clauseCandidate_empty size cl h)
  case refine_5 =>
    intro size cl h1 h2
    exact Req.processClause_cand_error size cl _ (Req.clauseCandidate_no_dash size cl h1 h2)
  case refine_6 =>
    intro size cl s1 s2 hsp h1 hs hp
    exact Req.processClause_cand_error size cl _
      (Req.clauseCandidate_bad_start size cl s1 s2 hsp h1 hs hp)
  case refine_7 =>
    intro size cl s1 s2 st hsp h1 hst he hp
    exact Req.processClause_cand_error size cl _
      (Req.clauseCandidate_bad_end size cl s1 s2 st hsp h1 hst he hp)
  case refine_8 =>
    intro header size e hne hpre hp
    unfold Req.Range
    rw [if_neg hne, if_neg (by simp [hpre]), hp]
  · intro header size hne hpre
    have hrw : Req.Range header size =
        match Req.processClauses size (splitOnChar ',' (header.drop 6)) with
        | .error e => .error e
        | .ok l => if l = [] then .error .noSatisfiable else .ok l := by
      unfold Req.Range
      rw [if_neg hne, if_neg (by simp [hpre])]
    cases hp : Req.processClauses size (splitOnChar ',' (header.drop 6)) with
    | error e =>
      have hrw2 : Req.Range header size = .error e := by rw [hrw, hp]
      rw [hrw2]
      constructor
      · intro hh
        injection hh with h2
        rcases Req.processClauses_error size _ e hp with h3 | h3 | h3 <;> simp [h3] at h2
      · intro hh
        exact Except.noConfusion hh
    | ok l =>
      have hrw2 : Req.Range header size =
          if l = [] then .error Req.RangeError.noSatisfiable else .ok l := by
        rw [hrw, hp]
      rw [hrw2]
      by_cases hl : l = []
      · rw [if_pos hl, hl]
        simp
      · rw [if_neg hl]
        constructor
        · intro hh
          exact Except.noConfusion hh
        · intro hh
          injection hh with h2
          exact absurd h2 hl

/-- Witness for C5: the silently-discarded clause `1000-1500` at size
1000, the kept clause `0-499`, its satisfiability, the input-order
filtering of the two-clause header, the unsatisfiable-range condition of
the size-500 example, the skipped blank clause, the invalid-format error
of a clause without `-`, the start- and end-bound parse errors, the
propagation of a bad clause through the clause loop, and the resulting
error of the whole `bytes=abc` call. -/
theorem range_parsing_witness :
    Req.processClause 1000 ("1000-1500".toList) = .ok none ∧
    Req.processClause 1000 ("0-499".toList) = .ok (some (0, 499)) ∧
    ((0 : Int) ≤ 499 ∧ (0 : Int) ≤ 0 ∧ (499 : Int) < 1000) ∧
    [((0 : Int), (499 : Int))] =
      (("0-499".toList) :: ("1000-1500".toList) :: []).filterMap (Req.clauseKept 1000) ∧
    (Req.Range ("bytes=1000-2000".toList) 500 = .error .noSatisfiable ↔
      Req.processClauses 500 (splitOnChar ',' (("bytes=1000-2000".toList).drop 6)) = .ok []) ∧
    Req.processClause 1000 (" ".toList) = .ok none ∧
    Req.processClause 1000 ("abc".toList) = .error .invalidFormat ∧
    Req.processClause 1000 ("x-5".toList) = .error .invalidStart ∧
    Req.processClause 1000 ("5-y".toList) = .error .invalidEnd ∧
    (∃ e2, (e2 = Req.RangeError.invalidFormat ∨ e2 = Req.RangeError.invalidStart ∨
        e2 = Req.RangeError.invalidEnd) ∧
      Req.processClauses 1000 (("0-499".toList) :: ("abc".toList) :: []) = .error e2) ∧
    Req.Range ("bytes=abc".toList) 1000 = .error .invalidFormat := by
  refine ⟨?_, ?_, ?_, ?_, ?_, ?_, ?_, ?_, ?_, ?_, ?_⟩
  · exact range_parsing.2.2.2.1 1000 ("1000-1500".toList) (1000, 1500) rfl rfl
  · exact range_parsing.2.2.2.2.1 1000 ("0-499".toList) (0, 499) rfl rfl
  · exact range_parsing.2.2.2.2.2.1 1000 ("0-499".toList) 0 499 rfl
  · exact range_parsing.2.2.2.2.2.2.1 1000
      (("0-499".toList) :: ("1000-1500".toList) :: []) [(0, 499)] rfl
  · exact range_parsing.2.2.2.2.2.2.2.1 ("bytes=1000-2000".toList) 500 (by decide) rfl
  · exact range_parsing.2.2.2.2.2.2.2.2.1 1000 (" ".toList) rfl
  · exact range_parsing.2.2.2.2.2.2.2.2.2.1 1000 ("abc".toList) (by decide) rfl
  · exact range_parsing.2.2.2.2.2.2.2.2.2.2.1 1000 ("x-5".toList)
      ("x".toList) ("5".toList) rfl (by decide) (by decide) rfl
  · exact range_parsing.2.2.2.2.2.2.2.2.2.2.2.1 1000 ("5-y".toList)
      ("5".toList) ("y".toList) 5 rfl (by decide) rfl (by decide) rfl
  · exact range_parsing.2.2.2.2.2.2.2.2.2.2.2.2.1 1000
      (("0-499".toList) :: ("abc".toList) :: [])
      ⟨("abc".toList), by decide, Req.RangeError.invalidFormat, rfl⟩
  · exact range_parsing.2.2.2.2.2.2.2.2.2.2.2.2.2 ("bytes=abc".toList) 1000
      Req.RangeError.invalidFormat (by decide) rfl rfl


/-- C7: for every digest function (the HMAC-SHA256 collaborator is
abstracted as `mac`), every secret and every cookie value — including the
empty string — `SignedCookie` stores `"<encodedDigest>.<originalValue>"`
with the digest standard-base64 encoded; since the encoding never contains
a dot, splitting the stored value at the first `.` returns the encoded
digest and the original value, and base64-decoding the first segment
yields exactly the digest recomputed over the remainder with the same
secret. -/
theorem signed_cookie_roundtrip :
    ∀ (mac : Str → Str → List (Fin 256)) (secret value : Str),
      Resp.SignedCookie mac secret value =
        B64.b64EncodeList (mac secret value) ++ '.' :: value ∧
      splitAtFirstChar '.' (Resp.SignedCookie mac secret value) =
        (B64.b64EncodeList (mac secret value), some value) ∧
      B64.b64DecodeList (splitAtFirstChar '.' (Resp.SignedCookie mac secret value)).1 =
        some (mac secret
          ((splitAtFirstChar '.' (Resp.SignedCookie mac secret value)).2.getD [])) := by
  intro mac secret value
  have key : splitAtFirstChar '.' (Resp.SignedCookie mac secret value) =
      (B64.b64EncodeList (mac secret value), some value) :=
    splitAtFirstChar_append '.' (B64.b64EncodeList (mac secret value)) value
      (B64.b64Encode_no_dot _)
  refine ⟨rfl, key, ?_⟩
  rw [key]
  exact B64.b64_decode_encode (mac secret value)

/-- Counterexample to C8 as stated: for the filename `dir/.secret` the
final path segment `.secret` starts with `'.'`, yet `Download` with policy
`"deny"` does not deny it — the whole-filename prefix check misses it, a
stat (and open, and serve) occurs, and the callback receives no error. -/
theorem download_dotfile_segment_not_denied :
    strHasPrefix [ '.' ] (Dl.lastSegment ("dir/.secret".toList)) = true ∧
    Dl.Download ⟨fun _ => some false, fun _ => true⟩ ("/any/path".toList)
        ("dir/.secret".toList) (some Dl.denyOptions) =
      ([.stat ("/any/path".toList), .openFile ("/any/path".toList), .serveContent],
        none) := by
  exact ⟨rfl, rfl⟩

/-- C8 amended: `Download` with dotfiles policy `"deny"` denies exactly
the filenames whose first character is `'.'` (the source checks
`strings.HasPrefix(filename, ".")`, not the final path segment): such a
call delivers the dotfiles-denied error to the callback and performs no
filesystem call at all; a call not so denied transfers via `SendFile`,
where a missing target delivers the stat (not-found) error after only the
stat call, a directory target the is-directory error, a failing open the
open error, and a regular readable file no error — in every case the
outcome is the callback value, never a thrown error. -/
theorem download_dotfiles (fs : Dl.FileSystem) (filePath fileName : Str)
    (options : Option Dl.DownloadOption) :
    ((options.getD Dl.defaultDownloadOptions).dotfiles = ("deny".toList) →
      strHasPrefix [ '.' ] fileName = true →
      Dl.Download fs filePath fileName options = ([], some .dotfilesDeny)) ∧
    (¬ ((options.getD Dl.defaultDownloadOptions).dotfiles = ("deny".toList) ∧
        strHasPrefix [ '.' ] fileName = true) →
      Dl.Download fs filePath fileName options = Dl.SendFile fs filePath fileName options) ∧
    (fs.stat filePath = none →
      Dl.SendFile fs filePath fileName options = ([.stat filePath], some .statFailed)) ∧
    (fs.stat filePath = some true →
      Dl.SendFile fs filePath fileName options = ([.stat filePath], some .dirPath)) ∧
    (fs.stat filePath = some false → fs.openOk filePath = true →
      Dl.SendFile fs filePath fileName options =
        ([.stat filePath, .openFile filePath, .serveContent], none)) ∧
    (fs.stat filePath = some false → fs.openOk filePath = false →
      Dl.SendFile fs filePath fileName options =
        ([.stat filePath, .openFile filePath], some .openFailed)) := by
  refine ⟨?_, ?_, ?_, ?_, ?_, ?_⟩
  · intro hd hp
    simp only [Dl.Download]
    rw [if_pos ⟨hd, hp⟩]
  · intro hc
    simp only [Dl.Download]
    rw [if_neg hc]
  · intro hs
    simp only [Dl.SendFile]
    rw [hs]
  · intro hs
    simp only [Dl.SendFile]
    rw [hs]
    rfl
  · intro hs ho
    simp only [Dl.SendFile]
    rw [hs]
    simp [ho]
  · intro hs ho
    simp only [Dl.SendFile]
    rw [hs]
    simp [ho]

/-- Witness for C8: the dotfile `.secret` is denied with no filesystem
call; a missing file, a directory, a readable file and an unopenable file
each deliver their error (or success) through the callback. -/
theorem download_dotfiles_witness :
    Dl.Download ⟨fun _ => some false, fun _ => true⟩ ("/any/path".toList)
        (".secret".toList) (some Dl.denyOptions) = ([], some .dotfilesDeny) ∧
    Dl.Download ⟨fun _ => none, fun _ => true⟩ ("/p".toList) ("f.txt".toList) none =
      Dl.SendFile ⟨fun _ => none, fun _ => true⟩ ("/p".toList) ("f.txt".toList) none ∧
    Dl.SendFile ⟨fun _ => none, fun _ => true⟩ ("/p".toList) ("f.txt".toList) none =
      ([.stat ("/p".toList)], some .statFailed) ∧
    Dl.SendFile ⟨fun _ => some true, fun _ => true⟩ ("/d".toList) ("f".toList) none =
      ([.stat ("/d".toList)], some .dirPath) ∧
    Dl.SendFile ⟨fun _ => some false, fun _ => true⟩ ("/f".toList) ("f".toList) none =
      ([.stat ("/f".toList), .openFile ("/f".toList), .serveContent], none) ∧
    Dl.SendFile ⟨fun _ => some false, fun _ => false⟩ ("/f".toList) ("f".toList) none =
      ([.stat ("/f".toList), .openFile ("/f".toList)], some .openFailed) := by
  refine ⟨?_, ?_, ?_, ?_, ?_, ?_⟩
  · exact (download_dotfiles ⟨fun _ => some false, fun _ => true⟩ ("/any/path".toList)
      (".secret".toList) (some Dl.denyOptions)).1 rfl rfl
  · exact (download_dotfiles ⟨fun _ => none, fun _ => true⟩ ("/p".toList)
      ("f.txt".toList) none).2.1 (by decide)
  · exact (download_dotfiles ⟨fun _ => none, fun _ => true⟩ ("/p".toList)
      ("f.txt".toList) none).2.2.1 rfl
  · exact (download_dotfiles ⟨fun _ => some true, fun _ => true⟩ ("/d".toList)
      ("f".toList) none).2.2.2.1 rfl
  · exact (download_dotfiles ⟨fun _ => some false, fun _ => true⟩ ("/f".toList)
      ("f".toList) none).2.2.2.2.1 rfl rfl
  · exact (download_dotfiles ⟨fun _ => some false, fun _ => false⟩ ("/f".toList)
      ("f".toList) none).2.2.2.2.2 rfl rfl

/-- C6 resolves against the code as a bug relative to the spec's mandate:
`parseHostName` returns `ok` for every Host header whatsoever — no
malformed Host can make decoration fail — and even on a decoration error
the registered handler closure only logs a DEBUG line and still enters
the handler chain; no 400-class pre-handler terminal exists in the code. -/
theorem malformed_host_never_fails :
    (∀ host : Str, ∃ h : Str, Req.parseHostName host = .ok h) ∧
    Req.parseHostName ("bad host:::name".toList) = .ok ("bad host".toList) ∧
    (∀ e : Str, Req.handlerEntry (.error e) = [.logDecorationError, .runChain]) ∧
    Req.handlerEntry (.ok ()) = [.runChain] := by
  refine ⟨?_, rfl, fun e => rfl, rfl⟩
  intro host
  cases hm : splitAtFirstChar ':' host with
  | mk pre rest =>
    cases rest with
    | none =>
      refine ⟨pre, ?_⟩
      unfold Req.parseHostName
      rw [hm]
    | some r =>
      refine ⟨pre, ?_⟩
      unfold Req.parseHostName
      rw [hm]

end Coco
